import Mathlib

set_option synthInstance.maxHeartbeats 1000000

/-!
Verification of the qlearn signal-generation and simulation-management core.

The definitions below are a shallow embedding of the Python sources:
  * `src/core/generators.py`    — edge detectors and signal generators,
  * `src/simulation/multisim.py`  — setup resolution and execution,
  * `src/simulation/management.py` — run repository / results manager.

Time series are modelled as lists of (timestamp, value) pairs with integer
timestamps and rational values; a missing (NaN) value is `Option.none`.
Pandas comparison semantics are kept: any comparison involving NaN is false.
Python exceptions are modelled with `Option`/`Except`.
-/

/-- Pandas `>` with missing data: any comparison involving NaN is False. -/
def nanGT : Option ℚ → Option ℚ → Bool
  | some a, some b => decide (b < a)
  | _, _ => false

/-- Pandas `<` with missing data. -/
def nanLT : Option ℚ → Option ℚ → Bool
  | some a, some b => decide (a < b)
  | _, _ => false

/-- Pandas `<=` with missing data. -/
def nanLE : Option ℚ → Option ℚ → Bool
  | some a, some b => decide (a ≤ b)
  | _, _ => false

/-- Pandas `>=` with missing data. -/
def nanGE : Option ℚ → Option ℚ → Bool
  | some a, some b => decide (b ≤ a)
  | _, _ => false

/-- The threshold argument `t` of `crossup`/`crossdown`
(src/core/generators.py:13-20): either a constant or a series aligned
positionally with the input series. -/
inductive Thr where
  | const : ℚ → Thr
  | series : List (Option ℚ) → Thr

/-- Threshold value compared against the current sample: `t` itself. -/
def thrCur : Thr → Nat → Option ℚ
  | .const c, _ => some c
  | .series ts, i => (ts[i]?).join

/-- Threshold value compared against the previous sample:
`t1 = t.shift(1) if isinstance(t, pd.Series) else t` (generators.py:14,19). -/
def thrPrev : Thr → Nat → Option ℚ
  | .const c, _ => some c
  | .series ts, i => if i = 0 then none else (ts[i-1]?).join

/-- `x.shift(1)` evaluated at position `i`: the previous sample's value,
NaN at the first position. -/
def prevVal (x : List (ℤ × Option ℚ)) (i : Nat) : Option ℚ :=
  if i = 0 then none else (x[i-1]?).bind Prod.snd

/-- `crossup(x, t) = x[(x > t) & (x.shift(1) <= t1)].index`
(src/core/generators.py:13-15). -/
def crossup (x : List (ℤ × Option ℚ)) (t : Thr) : List ℤ :=
  (List.range x.length).filterMap fun i =>
    (x[i]?).bind fun p =>
      if nanGT p.2 (thrCur t i) && nanLE (prevVal x i) (thrPrev t i) then some p.1 else none

/-- `crossdown(x, t) = x[(x < t) & (x.shift(1) >= t1)].index`
(src/core/generators.py:18-20). -/
def crossdown (x : List (ℤ × Option ℚ)) (t : Thr) : List ℤ :=
  (List.range x.length).filterMap fun i =>
    (x[i]?).bind fun p =>
      if nanLT p.2 (thrCur t i) && nanGE (prevVal x i) (thrPrev t i) then some p.1 else none

theorem mem_crossup_iff {x : List (ℤ × Option ℚ)} {t : Thr} {a : ℤ} :
    a ∈ crossup x t ↔ ∃ i, ∃ p : ℤ × Option ℚ, x[i]? = some p ∧ p.1 = a ∧
      (nanGT p.2 (thrCur t i) && nanLE (prevVal x i) (thrPrev t i)) = true := by
  simp only [crossup, List.mem_filterMap, List.mem_range, Option.bind_eq_some]
  constructor
  · rintro ⟨i, hi, p, hx, hif⟩
    split at hif
    · exact ⟨i, p, hx, Option.some.inj hif, by assumption⟩
    · cases hif
  · rintro ⟨i, p, hx, hpa, hc⟩
    have hilen : i < x.length := by
      by_contra hlen
      rw [List.getElem?_eq_none (le_of_not_lt hlen)] at hx
      cases hx
    exact ⟨i, hilen, p, hx, by rw [if_pos hc, hpa]⟩

theorem mem_crossdown_iff {x : List (ℤ × Option ℚ)} {t : Thr} {a : ℤ} :
    a ∈ crossdown x t ↔ ∃ i, ∃ p : ℤ × Option ℚ, x[i]? = some p ∧ p.1 = a ∧
      (nanLT p.2 (thrCur t i) && nanGE (prevVal x i) (thrPrev t i)) = true := by
  simp only [crossdown, List.mem_filterMap, List.mem_range, Option.bind_eq_some]
  constructor
  · rintro ⟨i, hi, p, hx, hif⟩
    split at hif
    · exact ⟨i, p, hx, Option.some.inj hif, by assumption⟩
    · cases hif
  · rintro ⟨i, p, hx, hpa, hc⟩
    have hilen : i < x.length := by
      by_contra hlen
      rw [List.getElem?_eq_none (le_of_not_lt hlen)] at hx
      cases hx
    exact ⟨i, hilen, p, hx, by rw [if_pos hc, hpa]⟩

/-- A crossing point always has a predecessor: position 0 never qualifies,
because `x.shift(1)` is NaN there and NaN comparisons are false. -/
theorem crossup_pos_ne_zero {x : List (ℤ × Option ℚ)} {t : Thr} {i : Nat}
    {p : ℤ × Option ℚ} (hc : (nanGT p.2 (thrCur t i) &&
      nanLE (prevVal x i) (thrPrev t i)) = true) : i ≠ 0 := by
  intro h0
  subst h0
  simp only [prevVal, if_pos rfl] at hc
  simp [nanLE] at hc

theorem crossdown_pos_ne_zero {x : List (ℤ × Option ℚ)} {t : Thr} {i : Nat}
    {p : ℤ × Option ℚ} (hc : (nanLT p.2 (thrCur t i) &&
      nanGE (prevVal x i) (thrPrev t i)) = true) : i ≠ 0 := by
  intro h0
  subst h0
  simp only [prevVal, if_pos rfl] at hc
  simp [nanGE] at hc

theorem cross_positions_eq {x : List (ℤ × Option ℚ)} {i j : Nat}
    {p q : ℤ × Option ℚ}
    (hmono : List.Pairwise (fun p q : ℤ × Option ℚ => p.1 < q.1) x)
    (hi : x[i]? = some p) (hj : x[j]? = some q) (hpq : p.1 = q.1) : i = j := by
  obtain ⟨hilen, hip⟩ := List.getElem?_eq_some_iff.mp hi
  obtain ⟨hjlen, hjq⟩ := List.getElem?_eq_some_iff.mp hj
  rw [List.pairwise_iff_getElem] at hmono
  rcases lt_trichotomy i j with hlt | heq | hgt
  · have := hmono i j hilen hjlen hlt
    rw [hip, hjq, hpq] at this
    exact absurd this (lt_irrefl _)
  · exact heq
  · have := hmono j i hjlen hilen hgt
    rw [hip, hjq, hpq] at this
    exact absurd this (lt_irrefl _)

/-- C1: for every series S and every threshold T (a constant or a series
aligned with S), the timestamp sets returned by `crossup(S,T)` and
`crossdown(S,T)` are disjoint, and neither contains the first index of S. -/
theorem crossup_crossdown_disjoint_and_first (x : List (ℤ × Option ℚ)) (t : Thr)
    (hmono : List.Pairwise (fun p q : ℤ × Option ℚ => p.1 < q.1) x) :
    (∀ a : ℤ, a ∈ crossup x t → a ∉ crossdown x t) ∧
    (∀ p0 : ℤ × Option ℚ, x.head? = some p0 →
      p0.1 ∉ crossup x t ∧ p0.1 ∉ crossdown x t) := by
  constructor
  · intro a hup hdown
    obtain ⟨i, p, hxi, hpa, hcu⟩ := mem_crossup_iff.mp hup
    obtain ⟨j, q, hxj, hqa, hcd⟩ := mem_crossdown_iff.mp hdown
    have hij : i = j := cross_positions_eq hmono hxi hxj (hpa.trans hqa.symm)
    subst hij
    have hpq : p = q := by rw [hxi] at hxj; exact Option.some.inj hxj
    subst hpq
    have h1 := (Bool.and_eq_true _ _).mp hcu |>.1
    have h2 := (Bool.and_eq_true _ _).mp hcd |>.1
    rcases hv : p.2 with _ | v <;> rcases hth : thrCur t i with _ | w <;>
      rw [hv, hth] at h1 h2 <;> simp [nanGT, nanLT] at h1 h2
    exact absurd (h1.trans h2) (lt_irrefl _)
  · intro p0 hhead
    have hx0 : x[0]? = some p0 := by
      cases x with
      | nil => cases hhead
      | cons y ys => simpa using hhead
    constructor
    · intro hup
      obtain ⟨i, p, hxi, hpa, hcu⟩ := mem_crossup_iff.mp hup
      have hne : i ≠ 0 := crossup_pos_ne_zero (x := x) hcu
      obtain ⟨hilen, hip⟩ := List.getElem?_eq_some_iff.mp hxi
      obtain ⟨h0len, h0p⟩ := List.getElem?_eq_some_iff.mp hx0
      rw [List.pairwise_iff_getElem] at hmono
      have := hmono 0 i h0len hilen (Nat.pos_of_ne_zero hne)
      rw [hip, h0p, hpa] at this
      exact absurd this (lt_irrefl _)
    · intro hdown
      obtain ⟨i, p, hxi, hpa, hcd⟩ := mem_crossdown_iff.mp hdown
      have hne : i ≠ 0 := crossdown_pos_ne_zero (x := x) hcd
      obtain ⟨hilen, hip⟩ := List.getElem?_eq_some_iff.mp hxi
      obtain ⟨h0len, h0p⟩ := List.getElem?_eq_some_iff.mp hx0
      rw [List.pairwise_iff_getElem] at hmono
      have := hmono 0 i h0len hilen (Nat.pos_of_ne_zero hne)
      rw [hip, h0p, hpa] at this
      exact absurd this (lt_irrefl _)

def c1ExSeries : List (ℤ × Option ℚ) := [(0, some 1), (1, some 3), (2, some 1)]

def c1ExThr : Thr := Thr.const 2

theorem crossup_crossdown_disjoint_and_first_witness :
    List.Pairwise (fun p q : ℤ × Option ℚ => p.1 < q.1) c1ExSeries ∧
    ((∀ a : ℤ, a ∈ crossup c1ExSeries c1ExThr → a ∉ crossdown c1ExSeries c1ExThr) ∧
     (∀ p0 : ℤ × Option ℚ, c1ExSeries.head? = some p0 →
       p0.1 ∉ crossup c1ExSeries c1ExThr ∧ p0.1 ∉ crossdown c1ExSeries c1ExThr)) :=
  ⟨by decide, crossup_crossdown_disjoint_and_first c1ExSeries c1ExThr (by decide)⟩

/-- Internal-bar-strength generator configuration
(src/core/generators.py:205-222). -/
structure InternalBarStrength where
  timeframe : String
  threshold : ℚ
  tz : String
  exact_time : Bool

def ibsThresholdError : String := "Threshold parameter must be in (0 ... 0.5) range !"

/-- `InternalBarStrength.__init__` (src/core/generators.py:216-222): stores the
configuration, sets `exact_time = True`, and raises `ValueError` when
`threshold >= 0.5 or threshold <= 0`. -/
def InternalBarStrength.init (timeframe : String) (threshold : ℚ) (tz : String) :
    Except String InternalBarStrength :=
  if threshold ≥ 1/2 ∨ threshold ≤ 0 then Except.error ibsThresholdError
  else Except.ok ⟨timeframe, threshold, tz, true⟩

/-- Outstretched-momentum generator configuration
(src/core/generators.py:150-185). -/
structure OsiMomentum where
  period : ℕ
  smoothing : ℕ
  threshold : ℚ

def osiThresholdError : String := "Threshold parameter exceedes 1 !"

/-- `OsiMomentum.__init__` (src/core/generators.py:173-185): stores the
configuration and raises `ValueError` when `threshold > 1`. -/
def OsiMomentum.init (period smoothing : ℕ) (threshold : ℚ) : Except String OsiMomentum :=
  if threshold > 1 then Except.error osiThresholdError
  else Except.ok ⟨period, smoothing, threshold⟩

/-- C7: constructing InternalBarStrength raises a configuration error exactly
when the threshold is at most 0 or at least 1/2 (so 1/2 and 0 fail, 3/10
succeeds), and constructing OsiMomentum raises exactly when the threshold
exceeds 1 (so 3/2 fails). -/
theorem threshold_validation_iff :
    (∀ (tf tz : String) (th : ℚ),
      (InternalBarStrength.init tf th tz).isOk = true ↔ (0 < th ∧ th < 1/2)) ∧
    (∀ (p s : ℕ) (th : ℚ), (OsiMomentum.init p s th).isOk = true ↔ th ≤ 1) := by
  constructor
  · intro tf tz th
    constructor
    · intro hk
      rw [InternalBarStrength.init] at hk
      split at hk
      · cases hk
      · rename_i h
        push_neg at h
        exact ⟨h.2, h.1⟩
    · rintro ⟨h1, h2⟩
      rw [InternalBarStrength.init, if_neg]
      · rfl
      · push_neg
        exact ⟨h2, h1⟩
  · intro p s th
    constructor
    · intro hk
      rw [OsiMomentum.init] at hk
      split at hk
      · cases hk
      · rename_i h
        exact le_of_not_lt h
    · intro h1
      rw [OsiMomentum.init, if_neg (not_lt_of_le h1)]
      rfl

/-- Opaque payload of an `ira` Tracker instance (src/simulation/multisim.py:9). -/
structure Tracker where
  tid : ℕ
deriving DecidableEq

/-- Opaque payload of a `pd.DataFrame`/`pd.Series` signal value. -/
structure SignalFrame where
  sid : ℕ
deriving DecidableEq

/-- Opaque payload of an sklearn `Pipeline`/`BaseEstimator` signal generator. -/
structure BaseEstimator where
  eid : ℕ
deriving DecidableEq

/-- A Python value fed to the setup resolver `_recognize`
(src/simulation/multisim.py:102-125): a mapping, a sequence, a tracker,
a signal series, an estimator, `None`, or any other object. -/
inductive Node where
  | dict : List (String × Node) → Node
  | list : List Node → Node
  | tracker : Tracker → Node
  | signal : SignalFrame → Node
  | estimator : BaseEstimator → Node
  | pynone : Node
  | other : ℕ → Node

/-- `_Types` (src/simulation/multisim.py:14-19). -/
inductive _Types where
  | UKNOWN
  | LIST
  | TRACKER
  | SIGNAL
  | ESTIMATOR
deriving DecidableEq

/-- `_type(obj)` (src/simulation/multisim.py:22-35).  A Python `dict` matches
none of the `isinstance` checks there, so it classifies as UKNOWN. -/
def _type : Node → _Types
  | .pynone => .UKNOWN
  | .list _ => .LIST
  | .tracker _ => .TRACKER
  | .signal _ => .SIGNAL
  | .estimator _ => .ESTIMATOR
  | .dict _ => .UKNOWN
  | .other _ => .UKNOWN

/-- `SimSetup` (src/simulation/multisim.py:67-72): `signals` and `trackers`
hold the raw objects passed to the constructor (`Option.none` models Python
`None`), and `name` is the experiment name. -/
structure SimSetup where
  signals : Option Node
  trackers : Option Node
  name : String

/-- `SimSetup.signal_type = _type(signals)` (src/simulation/multisim.py:70);
`_type(None)` is UKNOWN. -/
def SimSetup.signal_type (s : SimSetup) : _Types :=
  match s.signals with
  | none => .UKNOWN
  | some n => _type n

/-- `_is_signal_or_generator` (src/simulation/multisim.py:92-93). -/
def _is_signal_or_generator (obj : Node) : Bool :=
  decide (_type obj = .SIGNAL) || decide (_type obj = .ESTIMATOR)

/-- `_is_generator` (src/simulation/multisim.py:95-96). -/
def _is_generator (obj : Node) : Bool :=
  decide (_type obj = .ESTIMATOR)

/-- `_is_tracker` (src/simulation/multisim.py:98-99). -/
def _is_tracker (obj : Node) : Bool :=
  decide (_type obj = .TRACKER)

def slash : String := "/"

/-- The guard of the two-element pairing branch of `_recognize`
(src/simulation/multisim.py:110):
`len(setup) == 2 and _is_signal_or_generator(setup[0]) and _is_tracker(setup[1])`. -/
def isPairSetup : List Node → Bool
  | [a, b] => _is_signal_or_generator a && _is_tracker b
  | _ => false

/-- The body of the pairing branch (src/simulation/multisim.py:111):
`SimSetup(setup[0], setup[1], name)`. -/
def mkPairSetup : List Node → String → List SimSetup
  | a :: b :: _, name => [⟨some a, some b, name⟩]
  | _, _ => []

mutual

/-- `_recognize(setup, data, name)` (src/simulation/multisim.py:102-125).
The `data` argument is only passed through recursively and never read, so it
is dropped here.  Branch order follows the source: mapping, sequence (with
the two-element generator/tracker pairing special case), bare tracker, bare
signal frame, bare estimator; anything else contributes nothing. -/
def _recognize : Node → String → List SimSetup
  | .dict kvs, name => recognizeEntries kvs name
  | .list xs, name =>
    if isPairSetup xs then mkPairSetup xs name
    else recognizeItems xs 0 name
  | .tracker t, name => [⟨none, some (.tracker t), name⟩]
  | .signal s, name => [⟨some (.signal s), none, name⟩]
  | .estimator g, name => [⟨some (.estimator g), none, name⟩]
  | .pynone, _ => []
  | .other _, _ => []
termination_by n _ => sizeOf n

/-- The `for n, v in setup.items()` loop of `_recognize`
(src/simulation/multisim.py:105-107). -/
def recognizeEntries : List (String × Node) → String → List SimSetup
  | [], _ => []
  | (n, v) :: rest, name =>
    _recognize v (name ++ slash ++ n) ++ recognizeEntries rest name
termination_by l _ => sizeOf l

/-- The `for j, s in enumerate(setup)` loop of `_recognize`
(src/simulation/multisim.py:113-114). -/
def recognizeItems : List Node → ℕ → String → List SimSetup
  | [], _, _ => []
  | s :: rest, j, name =>
    _recognize s (name ++ slash ++ toString j) ++ recognizeItems rest (j + 1) name
termination_by l _ _ => sizeOf l

end

theorem mkPairSetup_inv (xs : List Node) (nm : String) :
    ∀ u ∈ mkPairSetup xs nm, u.signals.isSome ∨ u.trackers.isSome := by
  intro u hu
  cases xs with
  | nil => cases hu
  | cons a rest =>
    cases rest with
    | nil => cases hu
    | cons b rest2 =>
      simp only [mkPairSetup, List.mem_singleton] at hu
      subst hu
      exact Or.inl rfl

mutual

theorem recognize_inv : (n : Node) → (nm : String) →
    ∀ u ∈ _recognize n nm, u.signals.isSome ∨ u.trackers.isSome
  | .dict kvs, nm => by
    simp only [_recognize]
    exact recognizeEntries_inv kvs nm
  | .list xs, nm => by
    simp only [_recognize]
    split
    · exact mkPairSetup_inv xs nm
    · exact recognizeItems_inv xs 0 nm
  | .tracker t, nm => by
    simp only [_recognize, List.mem_singleton]
    rintro u rfl
    exact Or.inr rfl
  | .signal s, nm => by
    simp only [_recognize, List.mem_singleton]
    rintro u rfl
    exact Or.inl rfl
  | .estimator g, nm => by
    simp only [_recognize, List.mem_singleton]
    rintro u rfl
    exact Or.inl rfl
  | .pynone, nm => by
    simp only [_recognize]
    rintro u hu
    cases hu
  | .other k, nm => by
    simp only [_recognize]
    rintro u hu
    cases hu
termination_by n _ => sizeOf n

theorem recognizeEntries_inv : (l : List (String × Node)) → (nm : String) →
    ∀ u ∈ recognizeEntries l nm, u.signals.isSome ∨ u.trackers.isSome
  | [], nm => by
    simp only [recognizeEntries]
    rintro u hu
    cases hu
  | (n, v) :: rest, nm => by
    simp only [recognizeEntries, List.mem_append]
    rintro u (h | h)
    · exact recognize_inv v (nm ++ slash ++ n) u h
    · exact recognizeEntries_inv rest nm u h
termination_by l _ => sizeOf l

theorem recognizeItems_inv : (l : List Node) → (j : ℕ) → (nm : String) →
    ∀ u ∈ recognizeItems l j nm, u.signals.isSome ∨ u.trackers.isSome
  | [], j, nm => by
    simp only [recognizeItems]
    rintro u hu
    cases hu
  | s :: rest, j, nm => by
    simp only [recognizeItems, List.mem_append]
    rintro u (h | h)
    · exact recognize_inv s (nm ++ slash ++ toString j) u h
    · exact recognizeItems_inv rest (j + 1) nm u h
termination_by l _ _ => sizeOf l

end

/-- C8: every simulation unit emitted by the setup resolver, for every input
configuration, has at least one of its signal source and its tracker
non-null. -/
theorem sim_units_signal_or_tracker (n : Node) (nm : String) :
    ∀ u ∈ _recognize n nm, u.signals.isSome = true ∨ u.trackers.isSome = true :=
  recognize_inv n nm

def c8ExNode : Node := Node.list [Node.tracker ⟨3⟩, Node.signal ⟨4⟩]

def c8ExUnit : SimSetup := ⟨none, some (Node.tracker ⟨3⟩), "p/0"⟩

theorem sim_units_signal_or_tracker_witness :
    c8ExUnit ∈ _recognize c8ExNode ("p") ∧
    (c8ExUnit.signals.isSome = true ∨ c8ExUnit.trackers.isSome = true) :=
  ⟨by
    simp [c8ExNode, c8ExUnit, _recognize, recognizeItems, isPairSetup,
      _is_signal_or_generator, _is_tracker, _type, slash]
    rfl,
   sim_units_signal_or_tracker c8ExNode ("p") c8ExUnit (by
    simp [c8ExNode, c8ExUnit, _recognize, recognizeItems, isPairSetup,
      _is_signal_or_generator, _is_tracker, _type, slash]
    rfl)⟩

/-- The generator `genX` of the C3 example configuration. -/
def genX : Node := Node.estimator ⟨1⟩

/-- The tracker `trackerY` of the C3 example configuration. -/
def trackerY : Node := Node.tracker ⟨2⟩

/-- The signal series `seriesZ` of the C3 example configuration. -/
def seriesZ : Node := Node.signal ⟨3⟩

/-- The example configuration `{"a": [genX, trackerY], "b": [seriesZ]}`. -/
def c3Setup : Node :=
  Node.dict [("a", Node.list [genX, trackerY]), ("b", Node.list [seriesZ])]

def projRoot : String := ""

def pathA : String := "/a"

def pathB : String := "/b"

def nameB0 : String := "/b/0"

/-- C3 counterexample: resolving `{"a": [genX, trackerY], "b": [seriesZ]}`
yields the pair unit named "/a" and a series unit named "/b/0" — `[seriesZ]`
is a one-element sequence, so the resolver recurses and appends the element
index "/0".  No emitted unit holding `seriesZ` has a qualified name ending in
"/b" (ending-in is suffix of the character data), refuting the claim as
stated. -/
theorem resolver_nested_series_name_cex :
    _recognize c3Setup projRoot =
      [⟨some genX, some trackerY, pathA⟩, ⟨some seriesZ, none, nameB0⟩] ∧
    ¬ (pathB.data <:+ nameB0.data) := by
  constructor
  · simp [c3Setup, genX, trackerY, seriesZ, projRoot, _recognize, recognizeEntries,
      recognizeItems, isPairSetup, mkPairSetup, _is_signal_or_generator,
      _is_tracker, _type, slash]
    constructor <;> rfl
  · decide

/-- C3 amended: resolving `{"a": [genX, trackerY], "b": [seriesZ]}` produces
exactly two simulation units in the mapping's insertion order: the first pairs
genX with trackerY under the qualified name ".../a"; the second holds seriesZ
with no tracker under the qualified name ".../b/0" (the one-element sequence
`[seriesZ]` is recursed into, appending the element index 0). -/
theorem resolver_example_units :
    _recognize c3Setup projRoot =
      [⟨some genX, some trackerY, pathA⟩, ⟨some seriesZ, none, nameB0⟩] ∧
    pathA.data <:+ pathA.data ∧ ((pathB ++ slash).push '0').data <:+ nameB0.data := by
  refine ⟨?_, ?_, ?_⟩
  · simp [c3Setup, genX, trackerY, seriesZ, projRoot, _recognize, recognizeEntries,
      recognizeItems, isPairSetup, mkPairSetup, _is_signal_or_generator,
      _is_tracker, _type, slash]
    constructor <;> rfl
  · decide
  · decide

def zeroDigit : String := "0"

def oneDigit : String := "1"

theorem natToString_zero : toString (0 : ℕ) = zeroDigit := rfl

theorem natToString_one : toString (1 : ℕ) = oneDigit := rfl

/-- C10: a two-element sequence whose first element is a tracker and whose
second is a signal generator (the reverse of the declared pairing order) is
not paired into one unit: the resolver recurses element-wise and emits a
tracker-only unit at ".../0" and a generator-only unit at ".../1". -/
theorem reversed_pair_not_paired (t : Tracker) (g : BaseEstimator) (nm : String) :
    _recognize (Node.list [Node.tracker t, Node.estimator g]) nm =
      [⟨none, some (Node.tracker t), nm ++ slash ++ zeroDigit⟩,
       ⟨some (Node.estimator g), none, nm ++ slash ++ oneDigit⟩] := by
  simp [_recognize, recognizeItems, isPairSetup, _is_signal_or_generator,
    _is_tracker, _type, natToString_zero, natToString_one]

/-- One OHLC bar of input to the Range Breakout Detector
(src/core/generators.py:35-51): columns open/high/low/close and the rolling
channel columns RangeTop/RangeBot, keyed by the bar timestamp.  Python
attribute names open/high/low/close are prefixed with `b` because `open` is
a Lean keyword. -/
structure Bar where
  ts : ℤ
  bopen : ℚ
  bhigh : ℚ
  blow : ℚ
  bclose : ℚ
  rangeTop : ℚ
  rangeBot : ℚ
deriving DecidableEq

/-- `U = X.RangeTop + self.threshold` (src/core/generators.py:36). -/
def bandU (b : Bar) (threshold : ℚ) : ℚ := b.rangeTop + threshold

/-- `B = X.RangeBot - self.threshold` (src/core/generators.py:36). -/
def bandB (b : Bar) (threshold : ℚ) : ℚ := b.rangeBot - threshold

/-- `b1_bU = high.shift(1) <= U.shift(1)` at row i
(src/core/generators.py:39); the comparison is false at the first row because
shifting introduces NaN. -/
def b1_bU (bars : List Bar) (threshold : ℚ) (i : ℕ) : Bool :=
  if i = 0 then false
  else
    match bars[i-1]? with
    | some p => decide (p.bhigh ≤ bandU p threshold)
    | none => false

/-- `b1_aL = low.shift(1) >= B.shift(1)` at row i
(src/core/generators.py:40). -/
def b1_aL (bars : List Bar) (threshold : ℚ) (i : ℕ) : Bool :=
  if i = 0 then false
  else
    match bars[i-1]? with
    | some p => decide (bandB p threshold ≤ p.blow)
    | none => false

/-- `l_c = (b1_bU | (open <= U)) & (close > U)` (src/core/generators.py:41). -/
def l_c (bars : List Bar) (threshold : ℚ) (i : ℕ) : Bool :=
  match bars[i]? with
  | some b =>
    (b1_bU bars threshold i || decide (b.bopen ≤ bandU b threshold)) &&
      decide (bandU b threshold < b.bclose)
  | none => false

/-- `s_c = (b1_aL | (open >= B)) & (close < B)` (src/core/generators.py:42). -/
def s_c (bars : List Bar) (threshold : ℚ) (i : ℕ) : Bool :=
  match bars[i]? with
  | some b =>
    (b1_aL bars threshold i || decide (bandB b threshold ≤ b.bopen)) &&
      decide (b.bclose < bandB b threshold)
  | none => false

/-- `l_o = b1_bU & (open > U)` (src/core/generators.py:43). -/
def l_o (bars : List Bar) (threshold : ℚ) (i : ℕ) : Bool :=
  match bars[i]? with
  | some b => b1_bU bars threshold i && decide (bandU b threshold < b.bopen)
  | none => false

/-- `s_o = b1_aL & (open < B)` (src/core/generators.py:44). -/
def s_o (bars : List Bar) (threshold : ℚ) (i : ℕ) : Bool :=
  match bars[i]? with
  | some b => b1_aL bars threshold i && decide (b.bopen < bandB b threshold)
  | none => false

/-- `pd.Series(v, X[mask].index + off)` as a list of (timestamp, value)
events: one event per row of the frame whose mask is true, at the row's
timestamp shifted by `off` (src/core/generators.py:48-51). -/
def maskEvents (bars : List Bar) (mask : ℕ → Bool) (v : ℤ) (off : ℤ) :
    List (ℤ × ℤ) :=
  (List.range bars.length).filterMap fun i =>
    (bars[i]?).bind fun b => if mask i then some (b.ts + off, v) else none

/-- Modelled from the spec: `srows` is an external ira library call, not part
of this repository; per the spec it merges event streams as a keep-all union
ordered by timestamp. -/
def srows (rows : List (ℤ × ℤ)) : List (ℤ × ℤ) :=
  rows.mergeSort (fun a b => decide (a.1 ≤ b.1))

/-- `RangeBreakoutDetector._ohlc_breaks` (src/core/generators.py:35-51).
`pre_close` stands for `pre_close_time_shift(X)`, a helper of this repository
that is not under src/; modelled from the spec as an abstract configured
offset applied to close-triggered events. -/
def _ohlc_breaks (bars : List Bar) (threshold : ℚ) (pre_close : ℤ) :
    List (ℤ × ℤ) :=
  srows (maskEvents bars (l_o bars threshold) 1 0 ++
    maskEvents bars (fun i => l_c bars threshold i && !l_o bars threshold i) 1 pre_close ++
    maskEvents bars (s_o bars threshold) (-1) 0 ++
    maskEvents bars (fun i => s_c bars threshold i && !s_o bars threshold i) (-1) pre_close)

theorem mem_maskEvents_iff {bars : List Bar} {mask : ℕ → Bool} {v off : ℤ}
    {e : ℤ × ℤ} :
    e ∈ maskEvents bars mask v off ↔
      ∃ i, ∃ b : Bar, bars[i]? = some b ∧ mask i = true ∧ e = (b.ts + off, v) := by
  simp only [maskEvents, List.mem_filterMap, List.mem_range, Option.bind_eq_some]
  constructor
  · rintro ⟨i, hi, b, hb, hif⟩
    split at hif
    · exact ⟨i, b, hb, by assumption, (Option.some.inj hif).symm⟩
    · cases hif
  · rintro ⟨i, b, hb, hm, he⟩
    have hilen : i < bars.length := by
      by_contra hlen
      rw [List.getElem?_eq_none (le_of_not_lt hlen)] at hb
      cases hb
    exact ⟨i, hilen, b, hb, by rw [if_pos hm, he]⟩

theorem pairwise_ts_getElem?_inj {bars : List Bar} {i j : ℕ} {p q : Bar}
    (hmono : List.Pairwise (fun p q : Bar => p.ts < q.ts) bars)
    (hi : bars[i]? = some p) (hj : bars[j]? = some q) (h : p.ts = q.ts) :
    i = j := by
  obtain ⟨hilen, hip⟩ := List.getElem?_eq_some_iff.mp hi
  obtain ⟨hjlen, hjq⟩ := List.getElem?_eq_some_iff.mp hj
  rw [List.pairwise_iff_getElem] at hmono
  rcases lt_trichotomy i j with hlt | heq | hgt
  · have := hmono i j hilen hjlen hlt
    rw [hip, hjq, h] at this
    exact absurd this (lt_irrefl _)
  · exact heq
  · have := hmono j i hjlen hilen hgt
    rw [hip, hjq, h] at this
    exact absurd this (lt_irrefl _)

theorem countP_range_unique (p : ℕ → Bool) :
    ∀ n k, k < n → p k = true → (∀ i, i < n → i ≠ k → p i = false) →
      (List.range n).countP p = 1 := by
  intro n
  induction n with
  | zero => intro k hk; omega
  | succ n ih =>
    intro k hk hpk huniq
    rw [List.range_succ, List.countP_append]
    by_cases hkn : k = n
    · subst hkn
      have h0 : (List.range k).countP p = 0 := by
        rw [List.countP_eq_zero]
        intro i hi
        rw [huniq i (by simp at hi; omega) (by simp at hi; omega)]
        simp
      rw [h0, List.countP_cons, List.countP_nil, hpk]
      simp
    · have hkn' : k < n := by omega
      rw [ih k hkn' hpk (fun i hi hne => huniq i (by omega) hne),
        List.countP_cons, List.countP_nil, huniq n (by omega) (fun h => hkn h.symm)]
      simp

theorem mem_of_getElem?_bar {bars : List Bar} {i : ℕ} {b : Bar}
    (hb : bars[i]? = some b) : b ∈ bars := by
  obtain ⟨hl, hg⟩ := List.getElem?_eq_some_iff.mp hb
  exact hg ▸ List.getElem_mem hl

/-- C2: in OHLC mode of the Range Breakout Detector, for every bar k whose
previous bar's high is at or below the previous widened top band, whose open
is at or below the top band and whose close is above the top band, the
detector emits exactly one +1 event timestamped at bar k's timestamp plus the
pre-close shift; and no bar satisfies both the break-on-open mask and the
break-on-close mask.  (Timestamps are strictly increasing and the shifted
instant does not coincide with any bar timestamp, per the data model.) -/
theorem ohlc_break_on_close_unique (bars : List Bar) (threshold : ℚ)
    (pre_close : ℤ) (k : ℕ) (bk bk1 : Bar)
    (hkpos : k ≠ 0)
    (hk : bars[k]? = some bk) (hk1 : bars[k-1]? = some bk1)
    (hmono : List.Pairwise (fun p q : Bar => p.ts < q.ts) bars)
    (hshift : ∀ b ∈ bars, b.ts ≠ bk.ts + pre_close)
    (hhigh : bk1.bhigh ≤ bandU bk1 threshold)
    (hopen : bk.bopen ≤ bandU bk threshold)
    (hclose : bandU bk threshold < bk.bclose) :
    (_ohlc_breaks bars threshold pre_close).count (bk.ts + pre_close, 1) = 1 ∧
    (∀ j : ℕ, ¬ (l_o bars threshold j = true ∧
        (l_c bars threshold j && !l_o bars threshold j) = true)) := by
  have hb1 : b1_bU bars threshold k = true := by
    rw [b1_bU, if_neg hkpos, hk1]
    exact decide_eq_true hhigh
  have hlc : l_c bars threshold k = true := by
    rw [l_c, hk, hb1]
    simp [hclose]
  have hlo : l_o bars threshold k = false := by
    rw [l_o, hk]
    have : ¬ (bandU bk threshold < bk.bopen) := not_lt_of_le hopen
    simp [this]
  constructor
  · rw [_ohlc_breaks, srows, List.count_eq_countP,
      (List.mergeSort_perm _ _).countP_eq,
      List.countP_append, List.countP_append, List.countP_append]
    have hA : (maskEvents bars (l_o bars threshold) 1 0).countP
        (· == (bk.ts + pre_close, (1 : ℤ))) = 0 := by
      rw [List.countP_eq_zero]
      intro r hmem hbeq
      have hr : r = (bk.ts + pre_close, 1) := by simpa using hbeq
      subst hr
      obtain ⟨i, b, hbi, hm, he⟩ := mem_maskEvents_iff.mp hmem
      have h2 := congrArg Prod.fst he
      simp at h2
      exact hshift b (mem_of_getElem?_bar hbi) (by omega)
    have hC : (maskEvents bars (s_o bars threshold) (-1) 0).countP
        (· == (bk.ts + pre_close, (1 : ℤ))) = 0 := by
      rw [List.countP_eq_zero]
      intro r hmem hbeq
      have hr : r = (bk.ts + pre_close, 1) := by simpa using hbeq
      subst hr
      obtain ⟨i, b, hbi, hm, he⟩ := mem_maskEvents_iff.mp hmem
      have h2 := congrArg Prod.snd he
      simp at h2
    have hD : (maskEvents bars
        (fun i => s_c bars threshold i && !s_o bars threshold i) (-1)
        pre_close).countP (· == (bk.ts + pre_close, (1 : ℤ))) = 0 := by
      rw [List.countP_eq_zero]
      intro r hmem hbeq
      have hr : r = (bk.ts + pre_close, 1) := by simpa using hbeq
      subst hr
      obtain ⟨i, b, hbi, hm, he⟩ := mem_maskEvents_iff.mp hmem
      have h2 := congrArg Prod.snd he
      simp at h2
    have hB : (maskEvents bars
        (fun i => l_c bars threshold i && !l_o bars threshold i) 1
        pre_close).countP (· == (bk.ts + pre_close, (1 : ℤ))) = 1 := by
      rw [maskEvents, List.countP_filterMap]
      apply countP_range_unique _ bars.length k
      · exact (List.getElem?_eq_some_iff.mp hk).1
      · simp only [hk, Option.some_bind]
        rw [if_pos (by rw [hlc, hlo]; rfl)]
        simp
      · intro i hi hne
        cases hbi : bars[i]? with
        | none => simp [hbi]
        | some b =>
          simp only [hbi, Option.some_bind]
          by_cases hm : (l_c bars threshold i && !l_o bars threshold i) = true
          · rw [if_pos hm]
            simp only [Option.map_some', Option.getD_some]
            rw [beq_eq_false_iff_ne]
            intro he
            have h2 := congrArg Prod.fst he
            simp only at h2
            have hts : b.ts = bk.ts := by omega
            exact hne (pairwise_ts_getElem?_inj hmono hbi hk hts)
          · rw [if_neg hm]
            simp
    rw [hA, hB, hC, hD]
  · intro j hj
    obtain ⟨h1, h2⟩ := hj
    rw [h1] at h2
    simp at h2

def c2Bar0 : Bar := ⟨0, 9, 9, 8, 9, 10, 0⟩

def c2Bar1 : Bar := ⟨10, 10, 12, 9, 11, 10, 0⟩

def c2Bars : List Bar := [c2Bar0, c2Bar1]

theorem ohlc_break_on_close_unique_witness :
    ((1 : ℕ) ≠ 0 ∧ c2Bars[1]? = some c2Bar1 ∧ c2Bars[1-1]? = some c2Bar0 ∧
     List.Pairwise (fun p q : Bar => p.ts < q.ts) c2Bars ∧
     (∀ b ∈ c2Bars, b.ts ≠ c2Bar1.ts + 5) ∧
     c2Bar0.bhigh ≤ bandU c2Bar0 0 ∧ c2Bar1.bopen ≤ bandU c2Bar1 0 ∧
     bandU c2Bar1 0 < c2Bar1.bclose) ∧
    ((_ohlc_breaks c2Bars 0 5).count (c2Bar1.ts + 5, 1) = 1 ∧
     (∀ j : ℕ, ¬ (l_o c2Bars 0 j = true ∧
         (l_c c2Bars 0 j && !l_o c2Bars 0 j) = true))) :=
  ⟨⟨by decide, by decide, by decide, by decide, by decide,
    by norm_num [c2Bar0, bandU], by norm_num [c2Bar1, bandU],
    by norm_num [c2Bar1, bandU]⟩,
   ohlc_break_on_close_unique c2Bars 0 5 1 c2Bar1 c2Bar0
    (by decide) (by decide) (by decide) (by decide) (by decide)
    (by norm_num [c2Bar0, bandU]) (by norm_num [c2Bar1, bandU])
    (by norm_num [c2Bar1, bandU])⟩

/-- `mstruct(runid=r, symbol=sinf[2], path=path)`
(src/simulation/management.py:133). -/
structure RunRecordM where
  runid : String
  symbol : String
  path : String
deriving DecidableEq

/-- The nested index `prj_data` built by `SimulationsManager._collect_data`
(src/simulation/management.py:125-137): project name → run id → sequence
index → record, as insertion-ordered association lists mirroring Python
dicts. -/
abbrev RunsIndex := List (String × List (String × List (ℤ × RunRecordM)))

instance decEqRunEntries : DecidableEq (List (ℤ × RunRecordM)) := inferInstance

instance decEqRunMap : DecidableEq (List (String × List (ℤ × RunRecordM))) :=
  inferInstance

instance decEqRunsIndex : DecidableEq RunsIndex := inferInstance

instance decEqOptRunsIndex : DecidableEq (Option RunsIndex) := inferInstance

/-- Python `d[key]` lookup on an insertion-ordered dict. -/
def lookup? [DecidableEq κ] (m : List (κ × β)) (key : κ) : Option β :=
  (m.find? fun kv => decide (kv.1 = key)).map Prod.snd

/-- Python `d[key] = v` on an insertion-ordered dict: replaces the value in
place when the key exists, appends the pair otherwise. -/
def dictSet [DecidableEq κ] (m : List (κ × β)) (key : κ) (v : β) :
    List (κ × β) :=
  if m.any (fun kv => decide (kv.1 = key)) then
    m.map (fun kv => if kv.1 = key then (key, v) else kv)
  else m ++ [(key, v)]

/-- Single-character split of a character list, the semantics of Python
`s.split(sep)` for the one-character separators used by `_collect_data`
(`'/'` and `'.'`). -/
def splitOnChar (sep : Char) : List Char → List (List Char)
  | [] => [[]]
  | c :: cs =>
    match splitOnChar sep cs with
    | [] => if c = sep then [[], [c]] else [[c]]
    | h :: t => if c = sep then [] :: h :: t else (c :: h) :: t

/-- Python `s.split(sep)` for a one-character separator. -/
def strSplit (s : String) (sep : Char) : List String :=
  (splitOnChar sep s.data).map fun l => ⟨l⟩

/-- The numeric value of a decimal digit character. -/
def charDigit? (c : Char) : Option ℕ :=
  if c.isDigit then some (c.toNat - Char.toNat ('0')) else none

/-- The value of a non-empty all-digit character list. -/
def digitsVal? (l : List Char) : Option ℕ :=
  if l.isEmpty then none
  else l.foldlM (fun acc c => (charDigit? c).map fun d => 10 * acc + d) 0

/-- Python `int(s)` on a decimal string with an optional leading minus sign;
any other content raises `ValueError`, modelled as `none`. -/
def strToInt? (s : String) : Option ℤ :=
  match s.data with
  | Char.ofNat 45 :: rest => (digitsVal? rest).map fun n => -(n : ℤ)
  | l => (digitsVal? l).map fun n => (n : ℤ)

/-- The per-key parsing steps of `_collect_data`
(src/simulation/management.py:129-132): destructure
`s.split('/')[1:] + [s]` into `p, s, r, path` (so the split must have exactly
four components), split the third path segment on `.`, and parse its second
dot-component as the integer sequence index; its third dot-component is the
symbol.  Any failure (unpack mismatch, missing dot-components, non-integer)
raises, modelled as `none`.  Returns (project, run id, sequence, symbol). -/
def parseRunKey (s : String) : Option (String × String × ℤ × String) :=
  match strSplit s ('/') with
  | _ :: p :: sseg :: r :: [] =>
    match strSplit sseg ('.') with
    | _ :: kStr :: sym :: _ => (strToInt? kStr).map fun k => (p, r, k, sym)
    | _ => none
  | _ => none

/-- `ra = sorted(ra.items(), key=lambda kv: kv[0]); prj_data[p][r] = dict(ra)`
(src/simulation/management.py:134-135): re-sort the run's entries by
sequence index. -/
def sortRuns (ra : List (ℤ × RunRecordM)) : List (ℤ × RunRecordM) :=
  ra.insertionSort fun a b => a.1 ≤ b.1

/-- The loop body of `_collect_data` for one parsed key
(src/simulation/management.py:131-135): defaultdict access to
`prj_data[p][r]`, assignment `ra[k] = mstruct(...)`, and re-sorting of the
run's entries by sequence index. -/
def insertRun (idx : RunsIndex) (p r : String) (k : ℤ) (rec : RunRecordM) :
    RunsIndex :=
  let runs := (lookup? idx p).getD []
  let ra := (lookup? runs r).getD []
  dictSet idx p (dictSet runs r (sortRuns (dictSet ra k rec)))

/-- `SimulationsManager._collect_data` (src/simulation/management.py:125-137)
applied to the listing `recs = z_ls('runs/')`; an exception while parsing any
key aborts construction (`none`). -/
def _collect_data (recs : List String) : Option RunsIndex :=
  recs.foldlM
    (fun idx s =>
      (parseRunKey s).map fun x => insertRun idx x.1 x.2.1 x.2.2.1 ⟨x.2.1, x.2.2.2, s⟩)
    []

theorem lookup?_cons_pos [DecidableEq κ] {a : κ × β} {m : List (κ × β)}
    {key : κ} (h : a.1 = key) : lookup? (a :: m) key = some a.2 := by
  simp [lookup?, List.find?_cons, h]

theorem lookup?_cons_neg [DecidableEq κ] {a : κ × β} {m : List (κ × β)}
    {key : κ} (h : a.1 ≠ key) : lookup? (a :: m) key = lookup? m key := by
  simp [lookup?, List.find?_cons, h]

theorem mem_of_lookup? [DecidableEq κ] {m : List (κ × β)} {key : κ} {v : β}
    (h : lookup? m key = some v) : (key, v) ∈ m := by
  induction m with
  | nil => cases h
  | cons a m ih =>
    by_cases ha : a.1 = key
    · rw [lookup?_cons_pos ha] at h
      have h2 : a = (key, v) := by
        obtain ⟨k1, v1⟩ := a
        simp only at ha h
        rw [ha, Option.some.inj h]
      exact List.mem_cons.mpr (Or.inl h2.symm)
    · rw [lookup?_cons_neg ha] at h
      exact List.mem_cons_of_mem _ (ih h)

theorem lookup_dictSet_self [DecidableEq κ] (m : List (κ × β)) (key : κ)
    (v : β) : lookup? (dictSet m key v) key = some v := by
  rw [dictSet]
  split
  · rename_i hany
    induction m with
    | nil => cases hany
    | cons a m ih =>
      by_cases ha : a.1 = key
      · rw [List.map_cons, if_pos ha]
        exact lookup?_cons_pos rfl
      · rw [List.map_cons, if_neg ha, lookup?_cons_neg ha]
        apply ih
        simp only [List.any_cons, Bool.or_eq_true, decide_eq_true_eq] at hany
        rcases hany with h | h
        · exact absurd h ha
        · simpa using h
  · induction m with
    | nil => exact lookup?_cons_pos rfl
    | cons a m ih =>
      rename_i hany
      have ha : a.1 ≠ key := by
        intro h
        exact hany (by simp [h])
      rw [List.cons_append, lookup?_cons_neg ha]
      exact ih (by intro h; exact hany (by simp only [List.any_cons]; rw [h]; simp))

theorem lookup_dictSet_other [DecidableEq κ] (m : List (κ × β)) (key key' : κ)
    (v : β) (hne : key' ≠ key) :
    lookup? (dictSet m key v) key' = lookup? m key' := by
  rw [dictSet]
  split
  · rename_i hany
    clear hany
    induction m with
    | nil => rfl
    | cons a m ih =>
      by_cases ha : a.1 = key
      · rw [List.map_cons, if_pos ha, lookup?_cons_neg (Ne.symm hne),
          lookup?_cons_neg (show a.1 ≠ key' by rw [ha]; exact Ne.symm hne)]
        exact ih
      · rw [List.map_cons, if_neg ha]
        by_cases ha' : a.1 = key'
        · rw [lookup?_cons_pos ha', lookup?_cons_pos ha']
        · rw [lookup?_cons_neg ha', lookup?_cons_neg ha']
          exact ih
  · rename_i hany
    clear hany
    induction m with
    | nil => rw [List.nil_append, lookup?_cons_neg (Ne.symm hne)]
    | cons a m ih =>
      by_cases ha' : a.1 = key'
      · rw [List.cons_append, lookup?_cons_pos ha', lookup?_cons_pos ha']
      · rw [List.cons_append, lookup?_cons_neg ha', lookup?_cons_neg ha']
        exact ih

theorem mem_dictSet [DecidableEq κ] {m : List (κ × β)} {key : κ} {v : β}
    {x : κ × β} (hx : x ∈ dictSet m key v) : x ∈ m ∨ x = (key, v) := by
  rw [dictSet] at hx
  split at hx
  · obtain ⟨kv, hkv, hmap⟩ := List.mem_map.mp hx
    by_cases h : kv.1 = key
    · rw [if_pos h] at hmap
      exact Or.inr hmap.symm
    · rw [if_neg h] at hmap
      exact Or.inl (hmap ▸ hkv)
  · rcases List.mem_append.mp hx with h | h
    · exact Or.inl h
    · exact Or.inr (List.mem_singleton.mp h)

theorem keys_dictSet_mono [DecidableEq κ] {m : List (κ × β)} {key key' : κ}
    {v : β} (h : key' ∈ m.map Prod.fst) :
    key' ∈ (dictSet m key v).map Prod.fst := by
  by_cases hk : key' = key
  · subst hk
    exact List.mem_map.mpr ⟨(key', v), mem_of_lookup? (lookup_dictSet_self m key' v), rfl⟩
  · obtain ⟨kv, hkv, hfst⟩ := List.mem_map.mp h
    rw [dictSet]
    split
    · apply List.mem_map.mpr
      by_cases hkey : kv.1 = key
      · exact absurd (hfst ▸ hkey) hk
      · exact ⟨kv, List.mem_map.mpr ⟨kv, hkv, by rw [if_neg hkey]⟩, hfst⟩
    · exact List.mem_map.mpr ⟨kv, List.mem_append_left _ hkv, hfst⟩

instance : IsTotal (ℤ × RunRecordM) fun a b => a.1 ≤ b.1 :=
  ⟨fun a b => le_total a.1 b.1⟩

instance : IsTrans (ℤ × RunRecordM) fun a b => a.1 ≤ b.1 :=
  ⟨fun _ _ _ h1 h2 => le_trans h1 h2⟩

theorem sortRuns_sorted (ra : List (ℤ × RunRecordM)) :
    List.Sorted (fun a b : ℤ × RunRecordM => a.1 ≤ b.1) (sortRuns ra) :=
  List.sorted_insertionSort _ ra

theorem sortRuns_keys {ra : List (ℤ × RunRecordM)} {k : ℤ}
    (h : k ∈ ra.map Prod.fst) : k ∈ (sortRuns ra).map Prod.fst :=
  (((List.perm_insertionSort _ ra).map Prod.fst).mem_iff).mpr h

/-- Every run's entry list in the index is sorted ascending by sequence
index. -/
def runsSortedInv (idx : RunsIndex) : Prop :=
  ∀ pe ∈ idx, ∀ re ∈ pe.2,
    List.Sorted (fun a b : ℤ × RunRecordM => a.1 ≤ b.1) re.2

/-- The index holds an entry for sequence `k` of run `r` of project `p`. -/
def indexHas (idx : RunsIndex) (p r : String) (k : ℤ) : Prop :=
  ∃ runs, lookup? idx p = some runs ∧
    ∃ ra, lookup? runs r = some ra ∧ k ∈ ra.map Prod.fst

theorem insertRun_inv {idx : RunsIndex} (hInv : runsSortedInv idx)
    (p r : String) (k : ℤ) (rec : RunRecordM) :
    runsSortedInv (insertRun idx p r k rec) := by
  intro pe hpe re hre
  rcases mem_dictSet hpe with hold | hnew
  · exact hInv pe hold re hre
  · subst hnew
    simp only at hre
    rcases mem_dictSet hre with holdr | hnewr
    · cases hlk : lookup? idx p with
      | none => rw [hlk] at holdr; cases holdr
      | some runs0 =>
        rw [hlk] at holdr
        simp only [Option.getD_some] at holdr
        exact hInv (p, runs0) (mem_of_lookup? hlk) re holdr
    · subst hnewr
      exact sortRuns_sorted _

theorem insertRun_has (idx : RunsIndex) (p r : String) (k : ℤ)
    (rec : RunRecordM) : indexHas (insertRun idx p r k rec) p r k := by
  refine ⟨_, lookup_dictSet_self _ _ _, _, lookup_dictSet_self _ _ _, ?_⟩
  apply sortRuns_keys
  exact List.mem_map.mpr ⟨(k, rec), mem_of_lookup? (lookup_dictSet_self _ k rec), rfl⟩

theorem insertRun_preserves {idx : RunsIndex} {p r : String} {k : ℤ}
    (p' r' : String) (k' : ℤ) (rec : RunRecordM)
    (h : indexHas idx p r k) : indexHas (insertRun idx p' r' k' rec) p r k := by
  obtain ⟨runs, hl1, ra, hl2, hk⟩ := h
  simp only [insertRun]
  by_cases hp : p = p'
  · subst hp
    refine ⟨_, lookup_dictSet_self _ _ _, ?_⟩
    by_cases hr : r = r'
    · subst hr
      refine ⟨_, lookup_dictSet_self _ _ _, ?_⟩
      rw [hl1, Option.getD_some, hl2, Option.getD_some]
      exact sortRuns_keys (keys_dictSet_mono hk)
    · refine ⟨ra, ?_, hk⟩
      rw [lookup_dictSet_other _ _ _ _ hr, hl1, Option.getD_some]
      exact hl2
  · refine ⟨runs, ?_, ra, hl2, hk⟩
    rw [lookup_dictSet_other _ _ _ _ hp]
    exact hl1

theorem collect_data_build (recs : List String) :
    ∀ idx0 : RunsIndex, runsSortedInv idx0 →
    (∀ s ∈ recs, (parseRunKey s).isSome = true) →
    ∃ idx,
      (recs.foldlM
        (fun idx s => (parseRunKey s).map fun x =>
          insertRun idx x.1 x.2.1 x.2.2.1 ⟨x.2.1, x.2.2.2, s⟩) idx0) = some idx ∧
      runsSortedInv idx ∧
      (∀ p r k, indexHas idx0 p r k → indexHas idx p r k) ∧
      (∀ s ∈ recs, ∀ p r k sym, parseRunKey s = some (p, r, k, sym) →
        indexHas idx p r k) := by
  induction recs with
  | nil =>
    intro idx0 hInv _
    exact ⟨idx0, rfl, hInv, fun _ _ _ h => h, fun s hs => absurd hs (List.not_mem_nil s)⟩
  | cons s rest ih =>
    intro idx0 hInv hall
    have hs := hall s (List.mem_cons_self s rest)
    obtain ⟨x, hx⟩ := Option.isSome_iff_exists.mp hs
    obtain ⟨p, r, k, sym⟩ := x
    have hstep : (parseRunKey s).map
        (fun x => insertRun idx0 x.1 x.2.1 x.2.2.1 ⟨x.2.1, x.2.2.2, s⟩) =
        some (insertRun idx0 p r k ⟨r, sym, s⟩) := by
      rw [hx]; rfl
    obtain ⟨idx, heq, hinv, hpres, hrest⟩ :=
      ih (insertRun idx0 p r k ⟨r, sym, s⟩)
        (insertRun_inv hInv p r k ⟨r, sym, s⟩)
        (fun s' hs' => hall s' (List.mem_cons_of_mem s hs'))
    refine ⟨idx, ?_, hinv, ?_, ?_⟩
    · rw [List.foldlM_cons, hstep]
      exact heq
    · intro p' r' k' h
      exact hpres p' r' k' (insertRun_preserves p r k ⟨r, sym, s⟩ h)
    · intro s' hs' p' r' k' sym' hps'
      rcases List.mem_cons.mp hs' with hseq | hsmem
      · rw [hseq, hx] at hps'
        have h4 := Option.some.inj hps'
        rw [Prod.mk.injEq, Prod.mk.injEq, Prod.mk.injEq] at h4
        obtain ⟨rfl, rfl, rfl, rfl⟩ := h4
        exact hpres p r k (insertRun_has idx0 p r k ⟨r, sym, s⟩)
      · exact hrest s' hsmem p' r' k' sym' hps'

/-- The claim's description of key parsing, stated from the claim's words for
comparison with `parseRunKey`: a key of the form
`runs/{project}/{run_id}/{sequence_index}.{symbol}` is parsed by splitting
its LAST path segment on `.` into `[sequence_index, symbol]`. -/
def claimParseRunKey (s : String) : Option (String × String × ℤ × String) :=
  match strSplit s ('/') with
  | _ :: p :: r :: seg :: [] =>
    match strSplit seg ('.') with
    | kStr :: sym :: [] => (strToInt? kStr).map fun k => (p, r, k, sym)
    | _ => none
  | _ => none

def c5BadKey : String := "runs/P/R/0.SYM"

/-- C5 counterexample: for the listing ["runs/P/R/0.SYM"], whose single key
has exactly the form `runs/{project}/{run_id}/{sequence_index}.{symbol}`
described by the claim (its claimed parse succeeds), index construction
does not parse-and-group it: `_collect_data` raises (the third path segment
"R" has no second dot-component to parse as an integer), because the code
splits the third path segment on `.` and groups by the last segment, not the
other way around. -/
theorem collect_data_key_format_cex :
    claimParseRunKey c5BadKey = some (("P"), ("R"), 0, ("SYM")) ∧
    _collect_data [c5BadKey] = none := by
  constructor
  · decide
  · decide

/-- C5 amended: for every listing of stored run keys of the form
`runs/{project}/{tid}.{sequence_index}.{symbol}/{run_id}` (the shape the code
actually consumes: the THIRD path segment carries the dot-separated sequence
index and symbol, and the LAST segment is the run id), index construction
succeeds, groups each record under its project and then its run id, and
keeps every run's records ordered by sequence index ascending. -/
theorem collect_data_grouped_sorted (recs : List String)
    (hall : ∀ s ∈ recs, (parseRunKey s).isSome = true) :
    ∃ idx, _collect_data recs = some idx ∧
      (∀ pe ∈ idx, ∀ re ∈ pe.2,
        List.Sorted (fun a b : ℤ × RunRecordM => a.1 ≤ b.1) re.2) ∧
      (∀ s ∈ recs, ∀ p r k sym, parseRunKey s = some (p, r, k, sym) →
        indexHas idx p r k) := by
  obtain ⟨idx, heq, hinv, _, hmem⟩ :=
    collect_data_build recs [] (fun pe hpe => absurd hpe (List.not_mem_nil pe)) hall
  exact ⟨idx, heq, hinv, hmem⟩

def c5Keys : List String :=
  ["runs/P/task.1.SYM/R1", "runs/P/task.0.SYM/R1", "runs/Q/task.7.FX/R2"]

theorem collect_data_grouped_sorted_witness :
    (∀ s ∈ c5Keys, (parseRunKey s).isSome = true) ∧
    (∃ idx, _collect_data c5Keys = some idx ∧
      (∀ pe ∈ idx, ∀ re ∈ pe.2,
        List.Sorted (fun a b : ℤ × RunRecordM => a.1 ≤ b.1) re.2) ∧
      (∀ s ∈ c5Keys, ∀ p r k sym, parseRunKey s = some (p, r, k, sym) →
        indexHas idx p r k)) :=
  ⟨by decide, collect_data_grouped_sorted c5Keys (by decide)⟩

/-- Python `defaultdict` read access `dd[key]` with factory
`defaultdict(dict)`: returns the stored value, or inserts and returns a
fresh empty dict when the key is absent (src/simulation/management.py:126:
`prj_data = defaultdict(lambda: defaultdict(dict))`).  The returned pair
carries the possibly mutated mapping. -/
def ddGet (m : RunsIndex) (key : String) :
    List (String × List (ℤ × RunRecordM)) × RunsIndex :=
  match lookup? m key with
  | some v => (v, m)
  | none => ([], m ++ [(key, [])])

/-- `SimulationsManager.runs_for` (src/simulation/management.py:145-149):
`list(self.p[prj].keys())`.  `self.p` is the defaultdict returned by
`_collect_data`, so the subscript is a defaultdict access; the result pairs
the run-id list with the possibly mutated index. -/
def runs_for (idx : RunsIndex) (prj : String) : List String × RunsIndex :=
  ((ddGet idx prj).1.map Prod.fst, (ddGet idx prj).2)

/-- `SimulationsManager.projects` (src/simulation/management.py:139-143):
`list(self.p.keys())`. -/
def projects (idx : RunsIndex) : List String := idx.map Prod.fst

def c6Key : String := "runs/P/task.0.SYM/R1"

def c6Idx : RunsIndex :=
  [(("P"), [(("R1"), [(0, ⟨("R1"), ("SYM"), ("runs/P/task.0.SYM/R1")⟩)])])]

def c6Absent : String := "ZZZ"

/-- C6: the claim fails on the code.  On the index built from a listing for
project "P" alone, `runs_for("ZZZ")` does not fail with a not-found error:
`self.p` is a defaultdict, so the access silently returns an empty run list
AND inserts "ZZZ" into the manager's in-memory index, which `projects()`
then reports.  (`run_data`, by contrast, checks membership and raises.) -/
theorem runs_for_missing_project_no_error :
    _collect_data [c6Key] = some c6Idx ∧
    projects c6Idx = [("P")] ∧
    (runs_for c6Idx c6Absent).1 = [] ∧
    projects (runs_for c6Idx c6Absent).2 = [("P"), ("ZZZ")] := by
  refine ⟨by decide, by decide, by decide, by decide⟩

/-- `z_del(path)` on the storage collaborator: remove the artifact stored
under a key (src/simulation/management.py:112). -/
def z_del (storage : List (String × α)) (key : String) : List (String × α) :=
  storage.filter fun kv => decide (kv.1 ≠ key)

/-- `SimulationRunData` (src/simulation/management.py:20-29): `p` is the
run's record dict `prj_data[prj][run_id]`. -/
structure SimulationRunData where
  prj : String
  run_id : String
  p : List (ℤ × RunRecordM)
deriving DecidableEq

/-- `SimulationRunData.delete` (src/simulation/management.py:107-113):
`z_del` every record's artifact from storage, then rebind `self.p = []`.
The rebinding replaces the attribute with a fresh empty list; it does not
mutate the manager's nested index dict.  Returns the updated run data and
the updated storage. -/
def SimulationRunData.delete (rd : SimulationRunData)
    (storage : List (String × α)) :
    SimulationRunData × List (String × α) :=
  (⟨rd.prj, rd.run_id, []⟩,
   rd.p.foldl (fun st kr => z_del st kr.2.path) storage)

/-- `SimulationsManager.run_data` (src/simulation/management.py:151-161):
raises ValueError when the project or the run id is absent from the index,
else wraps `self.p[prj].get(run_id)` (`in` and `.get` do not trigger the
defaultdict factory). -/
def run_data (mp : RunsIndex) (prj rid : String) : Option SimulationRunData :=
  match lookup? mp prj with
  | none => none
  | some runs =>
    match lookup? runs rid with
    | none => none
    | some ra => some ⟨prj, rid, ra⟩

/-- The manager's index together with the storage collaborator. -/
structure MgrState (α : Type) where
  mgr : RunsIndex
  storage : List (String × α)
deriving DecidableEq

/-- Deleting one run's data through the manager: build the run data view
with `run_data`, then run `SimulationRunData.delete` on it.  The method
only touches its own record list and the storage; it never references the
owning manager's index, which is therefore carried through unchanged. -/
def deleteRun (st : MgrState α) (prj rid : String) :
    Option (SimulationRunData × MgrState α) :=
  (run_data st.mgr prj rid).map fun rd =>
    ((rd.delete st.storage).1, ⟨st.mgr, (rd.delete st.storage).2⟩)

theorem not_mem_z_del (storage : List (String × α)) (key : String) :
    key ∉ (z_del storage key).map Prod.fst := by
  intro h
  obtain ⟨kv, hkv, hfst⟩ := List.mem_map.mp h
  obtain ⟨_, hne⟩ := List.mem_filter.mp hkv
  exact (of_decide_eq_true hne) hfst

theorem z_del_absent (storage : List (String × α)) (key k' : String)
    (h : key ∉ storage.map Prod.fst) :
    key ∉ (z_del storage k').map Prod.fst := by
  intro hmem
  obtain ⟨kv, hkv, hfst⟩ := List.mem_map.mp hmem
  exact h (List.mem_map.mpr ⟨kv, (List.mem_filter.mp hkv).1, hfst⟩)

theorem foldl_z_del_absent (recs : List (ℤ × RunRecordM)) :
    ∀ (storage : List (String × α)) (key : String),
      key ∉ storage.map Prod.fst →
      key ∉ ((recs.foldl (fun st kr => z_del st kr.2.path) storage).map Prod.fst) := by
  induction recs with
  | nil => intro storage key h; exact h
  | cons kr recs ih =>
    intro storage key h
    exact ih _ key (z_del_absent storage key kr.2.path h)

theorem foldl_z_del_removes (recs : List (ℤ × RunRecordM)) :
    ∀ (storage : List (String × α)) (kr : ℤ × RunRecordM), kr ∈ recs →
      kr.2.path ∉
        ((recs.foldl (fun st kr => z_del st kr.2.path) storage).map Prod.fst) := by
  induction recs with
  | nil => intro _ _ h; cases h
  | cons kr0 recs ih =>
    intro storage kr hmem
    rcases List.mem_cons.mp hmem with heq | htail
    · subst heq
      rw [List.foldl_cons]
      exact foldl_z_del_absent recs _ _ (not_mem_z_del storage kr.2.path)
    · rw [List.foldl_cons]
      exact ih _ kr htail

/-- C9: `delete()` on a run's data removes every stored record's artifact
from storage and clears the run's local record collection, while the owning
manager's top-level index is carried through unchanged (no re-scan or
refresh of the manager occurs). -/
theorem run_delete_clears_local_frames_manager {α : Type} (st : MgrState α)
    (prj rid : String) (out : SimulationRunData × MgrState α)
    (h : deleteRun st prj rid = some out) :
    out.2.mgr = st.mgr ∧ out.1.p = [] ∧
    (∀ rd0, run_data st.mgr prj rid = some rd0 →
      ∀ kr ∈ rd0.p, kr.2.path ∉ out.2.storage.map Prod.fst) := by
  rw [deleteRun] at h
  cases hrd : run_data st.mgr prj rid with
  | none => rw [hrd] at h; cases h
  | some rd0 =>
    rw [hrd] at h
    have hout := Option.some.inj h
    subst hout
    refine ⟨rfl, rfl, ?_⟩
    intro rd1 hrd1 kr hkr
    have : rd0 = rd1 := Option.some.inj hrd1
    subst this
    exact foldl_z_del_removes rd0.p st.storage kr hkr

instance : DecidableEq (SimulationRunData × MgrState ℤ) := inferInstance

instance decEqOptDelOut : DecidableEq (Option (SimulationRunData × MgrState ℤ)) :=
  inferInstance

def c9Rec : RunRecordM := ⟨("R1"), ("SYM"), ("pa")⟩

def c9St : MgrState ℤ :=
  ⟨[(("P"), [(("R1"), [(0, c9Rec)])])], [(("pa"), 1), (("other"), 2)]⟩

def c9Out : SimulationRunData × MgrState ℤ :=
  (⟨("P"), ("R1"), []⟩,
   ⟨[(("P"), [(("R1"), [(0, c9Rec)])])], [(("other"), 2)]⟩)

theorem run_delete_clears_local_frames_manager_witness :
    deleteRun c9St ("P") ("R1") = some c9Out ∧
    (c9Out.2.mgr = c9St.mgr ∧ c9Out.1.p = [] ∧
     (∀ rd0, run_data c9St.mgr ("P") ("R1") = some rd0 →
       ∀ kr ∈ rd0.p, kr.2.path ∉ c9Out.2.storage.map Prod.fst)) :=
  ⟨by decide,
   run_delete_clears_local_frames_manager c9St ("P") ("R1") c9Out (by decide)⟩

/-- Insertion-ordered dedup of the dict `ss` keys
(src/simulation/multisim.py:50,59-60): assigning `ss[t] = nan` repeatedly
keeps one entry per distinct timestamp, in first-insertion order. -/
def dedupKeys (l : List ℤ) : List ℤ :=
  l.foldl (fun acc k => if k ∈ acc then acc else acc ++ [k]) []

/-- `len(d[start:stop])` for a label slice on an integer index: pandas label
slicing is inclusive at both ends. -/
def sliceLen (idx : List ℤ) (a b : ℤ) : ℕ :=
  (idx.filter fun x => decide (a ≤ x) && decide (x ≤ b)).length

/-- The stub timestamps produced for one market-data entry by
`start_stop_sigs` (src/simulation/multisim.py:51-63): with `start`/`stop`
defaulted to the entry's first/last index label, `dx = len(d[start:stop]) //
100`, and the dict keys are `idx[j * dx]` for j = 0..100 (101 subscripts
into the FULL index; an out-of-range subscript raises IndexError, modelled
as `none`; duplicate keys collapse).  An empty entry raises on
`d.index[0]`. -/
def stubIndex (idx : List ℤ) (start stop : Option ℤ) : Option (List ℤ) :=
  match idx with
  | [] => none
  | i0 :: rest =>
    let s := start.getD i0
    let e := stop.getD ((i0 :: rest).getLast (List.cons_ne_nil i0 rest))
    let dx := sliceLen (i0 :: rest) s e / 100
    ((List.range 101).mapM fun j => (i0 :: rest)[j * dx]?).map dedupKeys

/-- `start_stop_sigs(data, start, stop)` (src/simulation/multisim.py:38-64).
The `str(pd.Timestamp(start) + pd.Timedelta(stop))` normalization has no
counterpart for plain integer timestamps and is modelled as the identity
(its `except: pass` keeps `stop` unchanged on failure).  The `return r`
sits INSIDE the `for i, d in data.items()` loop, so only the first entry
is ever processed; an empty mapping returns Python `None` (`r` is never
assigned a frame), modelled as `none`. -/
def start_stop_sigs (data : List (String × List ℤ)) (start stop : Option ℤ) :
    Option (List (String × List ℤ)) :=
  match data with
  | [] => none
  | (nm, idx) :: _ => (stubIndex idx start stop).map fun ps => [(nm, ps)]

def c4IdxA : List ℤ := (List.range 150).map Int.ofNat

def c4Data : List (String × List ℤ) := [(("A"), c4IdxA), (("B"), c4IdxA)]

set_option maxRecDepth 10000

/-- C4: evaluation of the embedded code at the failing input.  For market
data with the two 150-sample entries "A" and "B" and no explicit interval,
`start_stop_sigs` returns after processing only the FIRST entry (one stub
column, for "A"), and that stub holds 101 placeholder timestamps 0..100
drawn from the full index — not exactly 100, not spanning [start, stop] =
[0, 149], and not one stub per entry as the claim (and spec §4.6) state. -/
theorem start_stop_sigs_first_entry_bug :
    (start_stop_sigs c4Data none none).map (fun cols => cols.map Prod.fst) =
      some [("A")] ∧
    stubIndex c4IdxA none none = some ((List.range 101).map Int.ofNat) := by
  constructor
  · decide
  · decide
